import Mathlib

/-
Verification of the FindOpenSimulationModels data-collection pipelines.

The development embeds the four pipeline modules — the result stores backed
by a CSV file (AnalyzeFmuFiles.ResultStore, AnalyzeRepositories.ResultStore),
the sorted-set store of the scraper (ScrapeGitHubFilesByExtension.ResultStore),
the batch loops that drive them, and the URL handling of DownloadGitHubFiles —
as executable Lean definitions, and proves the behavioural claims made by the
specification about duplicate keys, persistence round-trips, the test-mode cap,
message truncation, error handling and path derivation.

Python strings are modelled as Lean `String` (with character-level work done on
`String.data : List Char`); Python `None` is `Option.none`; pandas nullable
cells are `Option` values.
-/

/-- Lexicographic-by-code-point comparison of character lists.  This is the
ordering Python uses to compare strings, and hence the ordering pandas
`sort_index` and `sortedcontainers.SortedSet` arrange string keys by. -/
def charListLe : List Char → List Char → Bool
  | [], _ => true
  | _ :: _, [] => false
  | a :: as, b :: bs => if a = b then charListLe as bs else decide (a < b)

/-- String ordering used by the stores when sorting by key. -/
def strLe (a b : String) : Prop := charListLe a.data b.data = true

instance : DecidableRel strLe := fun a b =>
  inferInstanceAs (Decidable (charListLe a.data b.data = true))

theorem charListLe_refl : ∀ l : List Char, charListLe l l = true
  | [] => rfl
  | a :: as => by simp [charListLe, charListLe_refl as]

theorem charListLe_total : ∀ a b : List Char, charListLe a b = true ∨ charListLe b a = true
  | [], _ => Or.inl rfl
  | _ :: _, [] => Or.inr rfl
  | a :: as, b :: bs => by
    by_cases hab : a = b
    · subst hab
      simpa [charListLe] using charListLe_total as bs
    · rcases lt_or_gt_of_ne hab with h | h
      · exact Or.inl (by simp [charListLe, hab, h])
      · exact Or.inr (by simp [charListLe, Ne.symm hab, h, not_lt_of_gt h])

theorem charListLe_trans :
    ∀ a b c : List Char, charListLe a b = true → charListLe b c = true →
      charListLe a c = true
  | [], _, _, _, _ => rfl
  | _ :: _, [], _, h1, _ => by simp [charListLe] at h1
  | _ :: _, _ :: _, [], _, h2 => by simp [charListLe] at h2
  | a :: as, b :: bs, c :: cs, h1, h2 => by
    by_cases hab : a = b <;> by_cases hbc : b = c
    · subst hab; subst hbc
      simp only [charListLe, if_pos rfl] at h1 h2 ⊢
      exact charListLe_trans as bs cs h1 h2
    · subst hab
      simpa [charListLe, hbc] using h2
    · subst hbc
      simpa [charListLe, hab] using h1
    · simp only [charListLe, if_neg hab] at h1
      simp only [charListLe, if_neg hbc] at h2
      have hac : a < c := lt_trans (of_decide_eq_true h1) (of_decide_eq_true h2)
      have : a ≠ c := ne_of_lt hac
      simp [charListLe, this, hac]

theorem charListLe_antisymm :
    ∀ a b : List Char, charListLe a b = true → charListLe b a = true → a = b
  | [], [], _, _ => rfl
  | [], _ :: _, _, h2 => by simp [charListLe] at h2
  | _ :: _, [], h1, _ => by simp [charListLe] at h1
  | a :: as, b :: bs, h1, h2 => by
    by_cases hab : a = b
    · subst hab
      simp only [charListLe, if_pos rfl] at h1 h2
      rw [charListLe_antisymm as bs h1 h2]
    · simp only [charListLe, if_neg hab] at h1
      simp only [charListLe, if_neg (Ne.symm hab)] at h2
      exact absurd (of_decide_eq_true h2) (not_lt_of_gt (of_decide_eq_true h1))

theorem strLe_total (a b : String) : strLe a b ∨ strLe b a := charListLe_total _ _

theorem strLe_trans {a b c : String} (h1 : strLe a b) (h2 : strLe b c) : strLe a c :=
  charListLe_trans _ _ _ h1 h2

theorem strLe_antisymm {a b : String} (h1 : strLe a b) (h2 : strLe b a) : a = b := by
  cases a; cases b
  exact congrArg String.mk (charListLe_antisymm _ _ h1 h2)

/-- Python `str.startswith`, on the underlying character lists. -/
def strStartsWith (s p : String) : Bool := p.data.isPrefixOf s.data

theorem strStartsWith_append (p t : String) : strStartsWith (p ++ t) p = true := by
  have : p.data <+: (p ++ t).data := by
    rw [String.data_append]; exact List.prefix_append _ _
  simp only [strStartsWith]
  exact List.isPrefixOf_iff_prefix.mpr this

/-- One decimal digit of a decimal character, if the character is `'0'..'9'`. -/
def charToDigit (c : Char) : Option Nat :=
  if '0' ≤ c ∧ c ≤ '9' then some (c.toNat - '0'.toNat) else none

/-- Little-endian decimal digit characters of `n`, with explicit fuel so that
the definition is structurally recursive (fuel `n` is always sufficient). -/
def natDigitsAux : Nat → Nat → List Char
  | 0, _ => []
  | fuel + 1, n => if n = 0 then [] else Nat.digitChar (n % 10) :: natDigitsAux fuel (n / 10)

/-- Decimal representation of a natural number, most significant digit first;
this is how Python (and hence pandas `to_csv`) renders a nonnegative integer. -/
def natToDecChars (n : Nat) : List Char :=
  if n = 0 then ['0'] else (natDigitsAux n n).reverse

/-- Decimal rendering of a Python integer, as written by `to_csv` for an
`Int64` cell. -/
def intToDecString (i : Int) : String :=
  if i < 0 then String.mk ('-' :: natToDecChars i.natAbs) else String.mk (natToDecChars i.toNat)

/-- Accumulating decimal parser over a list of digit characters. -/
def parseDigitsAux : Nat → List Char → Option Nat
  | acc, [] => some acc
  | acc, c :: cs =>
    match charToDigit c with
    | some d => parseDigitsAux (acc * 10 + d) cs
    | none => none

/-- Parse a nonempty all-digit character list as a natural number. -/
def parseNatDigits : List Char → Option Nat
  | [] => none
  | c :: cs => parseDigitsAux 0 (c :: cs)

/-- Parse a decimal string, with optional leading minus sign, as an integer;
models how `read_csv` reads an `Int64Dtype` cell back. -/
def decStringToInt (s : String) : Option Int :=
  match s.data with
  | [] => none
  | c :: cs =>
    if c = '-' then (parseNatDigits cs).map (fun n => -(n : Int))
    else (parseNatDigits (c :: cs)).map (fun n => (n : Int))

theorem charToDigit_digitChar {d : Nat} (h : d < 10) :
    charToDigit (Nat.digitChar d) = some d := by
  interval_cases d <;> rfl

theorem charToDigit_isSome_digitChar {d : Nat} (h : d < 10) :
    (charToDigit (Nat.digitChar d)).isSome = true := by
  rw [charToDigit_digitChar h]; rfl

theorem parseDigitsAux_append (acc : Nat) (l1 l2 : List Char) :
    parseDigitsAux acc (l1 ++ l2) =
      match parseDigitsAux acc l1 with
      | some a => parseDigitsAux a l2
      | none => none := by
  induction l1 generalizing acc with
  | nil => rfl
  | cons c cs ih =>
    simp only [List.cons_append, parseDigitsAux]
    cases charToDigit c with
    | none => rfl
    | some d => exact ih _

theorem natDigitsAux_zero (fuel : Nat) : natDigitsAux fuel 0 = [] := by
  cases fuel <;> rfl

theorem parseDigitsAux_natDigitsAux :
    ∀ fuel n acc, n ≤ fuel →
      parseDigitsAux acc (natDigitsAux fuel n).reverse =
        some (acc * 10 ^ (natDigitsAux fuel n).length + n) := by
  intro fuel
  induction fuel with
  | zero => intro n acc h; interval_cases n; simp [natDigitsAux, parseDigitsAux]
  | succ f ih =>
    intro n acc h
    by_cases hn : n = 0
    · subst hn; simp [natDigitsAux, parseDigitsAux]
    · have hdiv : n / 10 ≤ f := by
        have : n / 10 < n := Nat.div_lt_self (Nat.pos_of_ne_zero hn) (by omega)
        omega
      simp only [natDigitsAux, if_neg hn, List.reverse_cons]
      rw [parseDigitsAux_append, ih (n / 10) acc hdiv]
      simp only [parseDigitsAux, charToDigit_digitChar (Nat.mod_lt n (by omega)),
        List.length_cons]
      congr 1
      have := Nat.div_add_mod n 10
      ring_nf
      omega

theorem parseNatDigits_natToDecChars (n : Nat) :
    parseNatDigits (natToDecChars n) = some n := by
  by_cases hn : n = 0
  · subst hn; rfl
  · have h1 := parseDigitsAux_natDigitsAux n n 0 le_rfl
    have hne : natDigitsAux n n ≠ [] := by
      cases n with
      | zero => exact absurd rfl hn
      | succ m => simp [natDigitsAux, hn]
    unfold natToDecChars
    rw [if_neg hn]
    obtain ⟨c, cs, hcc⟩ : ∃ c cs, (natDigitsAux n n).reverse = c :: cs := by
      cases hrev : (natDigitsAux n n).reverse with
      | nil => exact absurd (List.reverse_eq_nil_iff.mp hrev) hne
      | cons c cs => exact ⟨c, cs, rfl⟩
    rw [hcc]
    show parseDigitsAux 0 (c :: cs) = some n
    rw [← hcc, h1]
    simp

theorem natDigitsAux_digits :
    ∀ fuel n, ∀ c ∈ natDigitsAux fuel n, (charToDigit c).isSome = true
  | 0, _, _, hc => by simp [natDigitsAux] at hc
  | fuel + 1, n, c, hc => by
    simp only [natDigitsAux] at hc
    split at hc
    · simp at hc
    · rcases List.mem_cons.mp hc with h | h
      · subst h; exact charToDigit_isSome_digitChar (Nat.mod_lt _ (by omega))
      · exact natDigitsAux_digits fuel _ c h

theorem natToDecChars_digits (n : Nat) :
    ∀ c ∈ natToDecChars n, (charToDigit c).isSome = true := by
  unfold natToDecChars
  split
  · intro c hc
    simp only [List.mem_singleton] at hc
    subst hc; rfl
  · intro c hc
    rw [List.mem_reverse] at hc
    exact natDigitsAux_digits n n c hc

theorem natToDecChars_ne_nil (n : Nat) : natToDecChars n ≠ [] := by
  unfold natToDecChars
  split
  · intro h; cases h
  · next hn =>
    intro h
    rw [List.reverse_eq_nil_iff] at h
    cases n with
    | zero => exact hn rfl
    | succ m => simp [natDigitsAux, hn] at h

theorem decStringToInt_intToDecString (i : Int) :
    decStringToInt (intToDecString i) = some i := by
  unfold intToDecString
  by_cases hi : i < 0
  · rw [if_pos hi]
    show decStringToInt ⟨'-' :: natToDecChars i.natAbs⟩ = some i
    unfold decStringToInt
    simp only [if_pos rfl]
    obtain ⟨c, cs, hcc⟩ : ∃ c cs, natToDecChars i.natAbs = c :: cs := by
      cases h : natToDecChars i.natAbs with
      | nil => exact absurd h (natToDecChars_ne_nil _)
      | cons c cs => exact ⟨c, cs, rfl⟩
    rw [hcc, show parseNatDigits (c :: cs) = parseNatDigits (natToDecChars i.natAbs) by rw [hcc],
      parseNatDigits_natToDecChars]
    show some (-(i.natAbs : Int)) = some i
    congr 1
    omega
  · rw [if_neg hi]
    show decStringToInt ⟨natToDecChars i.toNat⟩ = some i
    unfold decStringToInt
    obtain ⟨c, cs, hcc⟩ : ∃ c cs, natToDecChars i.toNat = c :: cs := by
      cases h : natToDecChars i.toNat with
      | nil => exact absurd h (natToDecChars_ne_nil _)
      | cons c cs => exact ⟨c, cs, rfl⟩
    simp only [hcc]
    have hdigit : (charToDigit c).isSome = true :=
      natToDecChars_digits i.toNat c (hcc ▸ List.mem_cons_self c cs)
    have hcm : ¬ c = '-' := by
      intro h
      subst h
      simp [charToDigit] at hdigit
    rw [if_neg hcm, ← hcc, parseNatDigits_natToDecChars]
    show some ((i.toNat : Int)) = some i
    congr 1
    omega

/-
Persistence model for the pandas-backed stores.

`ResultStore.save` (`AnalyzeFmuFiles.py` lines 77-79, `AnalyzeRepositories.py`
lines 60-62) sorts the DataFrame by its string index and writes it with
`to_csv`; `ResultStore.__init__` reads it back with `read_csv`, declaring each
column as nullable `StringDtype`, `BooleanDtype` or `Int64Dtype`.  The model
works at the level of one CSV field per cell: quoting makes the CSV transport
of a field's text lossless, so a file is a list of rows, each row a list of
field strings.  `to_csv` writes a missing value as the empty field, a boolean
as `True`/`False` and an integer as its decimal text; `read_csv` first treats
any field matching one of its default NA markers as missing and otherwise
converts the text to the declared dtype (a key field that parses as an NA
marker is modelled as a load failure).
-/

/-- Column types supported by the stores: nullable string, nullable boolean,
nullable 64-bit integer. -/
inductive Dtype
  | string
  | boolean
  | int64
deriving DecidableEq

/-- A populated cell value. -/
inductive CellVal
  | vStr (s : String)
  | vBool (b : Bool)
  | vInt (i : Int)
deriving DecidableEq

/-- Does a populated value match the declared column dtype? -/
def cellTypeOk : Dtype → Option CellVal → Bool
  | _, none => true
  | .string, some (.vStr _) => true
  | .boolean, some (.vBool _) => true
  | .int64, some (.vInt _) => true
  | _, some _ => false

/-- A whole row's cells match the schema, position by position. -/
def cellsWellTyped : List Dtype → List (Option CellVal) → Bool
  | [], [] => true
  | d :: ds, c :: cs => cellTypeOk d c && cellsWellTyped ds cs
  | _, _ => false

/-- The default strings `read_csv` interprets as missing values. -/
def naTokens : List String :=
  ["", "#N/A", "#N/A N/A", "#NA", "-1.#IND", "-1.#QNAN", "-NaN", "-nan",
   "1.#IND", "1.#QNAN", "<NA>", "N/A", "NA", "NULL", "NaN", "None", "n/a",
   "nan", "null"]

/-- How `to_csv` renders one nullable cell as a CSV field. -/
def serializeCell : Option CellVal → String
  | none => ""
  | some (.vStr s) => s
  | some (.vBool b) => if b then "True" else "False"
  | some (.vInt i) => intToDecString i

/-- How `read_csv` reads one CSV field back at a declared dtype: NA markers
become missing values, anything else must convert to the dtype (outer `none`
is a fatal parse failure). -/
def parseCell (d : Dtype) (s : String) : Option (Option CellVal) :=
  if s ∈ naTokens then some none
  else
    match d with
    | .string => some (some (.vStr s))
    | .boolean =>
      if s = "True" then some (some (.vBool true))
      else if s = "False" then some (some (.vBool false))
      else none
    | .int64 => (decStringToInt s).map (fun i => some (.vInt i))

/-- One record of a pandas-backed store: a string key (the index value) plus
the nullable typed cells of the remaining columns. -/
structure CsvRow where
  key : String
  cells : List (Option CellVal)
deriving DecidableEq

/-- The serialized form of one row: the key field followed by one field per
cell, as `to_csv` writes it. -/
def serializeRow (r : CsvRow) : List String :=
  r.key :: r.cells.map serializeCell

/-- Parse the cell fields of a row against the schema; the field count must
match the header. -/
def parseCells : List Dtype → List String → Option (List (Option CellVal))
  | [], [] => some []
  | d :: ds, s :: ss =>
    match parseCell d s, parseCells ds ss with
    | some c, some cs => some (c :: cs)
    | _, _ => none
  | _, _ => none

/-- Parse one file row: the leading key field (a key reading as an NA marker
fails the load) followed by the typed cells. -/
def parseRow (schema : List Dtype) : List String → Option CsvRow
  | [] => none
  | k :: ss =>
    if k ∈ naTokens then none
    else (parseCells schema ss).map (fun cs => ⟨k, cs⟩)

/-- `read_csv` over the whole file: every row must parse (a malformed file is
a fatal load error). -/
def loadTable (schema : List Dtype) : List (List String) → Option (List CsvRow)
  | [] => some []
  | f :: fs =>
    match parseRow schema f, loadTable schema fs with
    | some r, some rs => some (r :: rs)
    | _, _ => none

/-- Key order on rows, as used by `DataFrame.sort_index`. -/
def rowLe (a b : CsvRow) : Prop := strLe a.key b.key

instance : DecidableRel rowLe := fun a b => inferInstanceAs (Decidable (strLe a.key b.key))

instance : IsTotal CsvRow rowLe := ⟨fun a b => strLe_total a.key b.key⟩

instance : IsTrans CsvRow rowLe := ⟨fun _ _ _ h1 h2 => strLe_trans h1 h2⟩

/-- `self.df.sort_index(inplace=True)`: the table sorted by key ascending. -/
def sortCsvTable (t : List CsvRow) : List CsvRow := List.insertionSort rowLe t

/-- `ResultStore.save`: sort the table by key, then serialize every row to the
file. -/
def saveTable (t : List CsvRow) : List (List String) :=
  (sortCsvTable t).map serializeRow

theorem not_na_of_decimal (s : String) (h1 : s.data ≠ [])
    (h2 : ∀ c ∈ s.data, (charToDigit c).isSome = true ∨ c = '-') : s ∉ naTokens := by
  intro hm
  fin_cases hm <;>
    first
      | exact h1 rfl
      | exact absurd (h2 '#' (by decide)) (by decide)
      | exact absurd (h2 '.' (by decide)) (by decide)
      | exact absurd (h2 '<' (by decide)) (by decide)
      | exact absurd (h2 'N' (by decide)) (by decide)
      | exact absurd (h2 'n' (by decide)) (by decide)

theorem intToDecString_not_na (i : Int) : intToDecString i ∉ naTokens := by
  unfold intToDecString
  split
  · refine not_na_of_decimal _ (by simp) ?_
    intro c hc
    rcases List.mem_cons.mp hc with h | h
    · exact Or.inr h
    · exact Or.inl (natToDecChars_digits _ c h)
  · refine not_na_of_decimal _ ?_ ?_
    · show natToDecChars _ ≠ []
      exact natToDecChars_ne_nil _
    · intro c hc
      exact Or.inl (natToDecChars_digits _ c hc)

theorem parseCell_serializeCell {d : Dtype} {c : Option CellVal}
    (hty : cellTypeOk d c = true)
    (hna : ∀ v, c = some (CellVal.vStr v) → v ∉ naTokens) :
    parseCell d (serializeCell c) = some c := by
  cases c with
  | none =>
    show parseCell d "" = some none
    unfold parseCell
    rw [if_pos (by decide : ("" : String) ∈ naTokens)]
  | some v =>
    cases v with
    | vStr s =>
      cases d with
      | string =>
        have hs : s ∉ naTokens := hna s rfl
        show parseCell .string s = _
        unfold parseCell
        rw [if_neg hs]
      | boolean => simp [cellTypeOk] at hty
      | int64 => simp [cellTypeOk] at hty
    | vBool b =>
      cases d with
      | string => simp [cellTypeOk] at hty
      | boolean => cases b <;> decide
      | int64 => simp [cellTypeOk] at hty
    | vInt i =>
      cases d with
      | string => simp [cellTypeOk] at hty
      | boolean => simp [cellTypeOk] at hty
      | int64 =>
        show parseCell .int64 (intToDecString i) = _
        unfold parseCell
        rw [if_neg (intToDecString_not_na i)]
        simp [decStringToInt_intToDecString i]

theorem parseCells_serialize :
    ∀ (schema : List Dtype) (cs : List (Option CellVal)),
      cellsWellTyped schema cs = true →
      (∀ v, some (CellVal.vStr v) ∈ cs → v ∉ naTokens) →
      parseCells schema (cs.map serializeCell) = some cs
  | [], [], _, _ => rfl
  | [], _ :: _, hty, _ => by simp [cellsWellTyped] at hty
  | _ :: _, [], hty, _ => by simp [cellsWellTyped] at hty
  | d :: ds, c :: cs, hty, hna => by
    simp only [cellsWellTyped, Bool.and_eq_true] at hty
    have h1 : parseCell d (serializeCell c) = some c :=
      parseCell_serializeCell hty.1 (fun v hv => hna v (hv ▸ List.mem_cons_self c cs))
    have h2 : parseCells ds (cs.map serializeCell) = some cs :=
      parseCells_serialize ds cs hty.2 (fun v hv => hna v (List.mem_cons_of_mem c hv))
    simp only [List.map_cons, parseCells, h1, h2]

theorem parseRow_serializeRow (schema : List Dtype) (r : CsvRow)
    (hty : cellsWellTyped schema r.cells = true)
    (hkey : r.key ∉ naTokens)
    (hstr : ∀ v, some (CellVal.vStr v) ∈ r.cells → v ∉ naTokens) :
    parseRow schema (serializeRow r) = some r := by
  have hstep : parseRow schema (serializeRow r) =
      if r.key ∈ naTokens then none
      else (parseCells schema (r.cells.map serializeCell)).map (fun cs => CsvRow.mk r.key cs) :=
    rfl
  rw [hstep, if_neg hkey, parseCells_serialize schema r.cells hty hstr]
  rfl

theorem loadTable_serializedRows (schema : List Dtype) :
    ∀ l : List CsvRow,
      (∀ r ∈ l, parseRow schema (serializeRow r) = some r) →
      loadTable schema (l.map serializeRow) = some l
  | [], _ => rfl
  | r :: rs, h => by
    have h1 := h r (List.mem_cons_self r rs)
    have h2 := loadTable_serializedRows schema rs (fun x hx => h x (List.mem_cons_of_mem r hx))
    simp only [List.map_cons, loadTable, h1, h2]

theorem sortCsvTable_perm (t : List CsvRow) : List.Perm (sortCsvTable t) t :=
  List.perm_insertionSort _ t

theorem sortCsvTable_sorted (t : List CsvRow) : (sortCsvTable t).Sorted rowLe :=
  List.sorted_insertionSort _ t

theorem eq_of_perm_of_sorted_nodupKeys :
    ∀ {l1 l2 : List CsvRow}, List.Perm l1 l2 → l1.Sorted rowLe → l2.Sorted rowLe →
      (l1.map CsvRow.key).Nodup → l1 = l2 := by
  intro l1
  induction l1 with
  | nil =>
    intro l2 p _ _ _
    exact (List.Perm.eq_nil p.symm).symm
  | cons a t1 ih =>
    intro l2 p s1 s2 nd
    cases l2 with
    | nil => exact absurd (List.Perm.eq_nil p) (by simp)
    | cons b t2 =>
      by_cases hab : a = b
      · subst hab
        have p' := p.cons_inv
        have hnd : (t1.map CsvRow.key).Nodup := by
          simp only [List.map_cons] at nd
          exact nd.of_cons
        rw [ih p' s1.of_cons s2.of_cons hnd]
      · exfalso
        have hbmem : b ∈ a :: t1 := p.mem_iff.mpr (List.mem_cons_self b t2)
        have hbt1 : b ∈ t1 := by
          rcases List.mem_cons.mp hbmem with h | h
          · exact absurd h.symm hab
          · exact h
        have hamem : a ∈ b :: t2 := p.mem_iff.mp (List.mem_cons_self a t1)
        have hat2 : a ∈ t2 := by
          rcases List.mem_cons.mp hamem with h | h
          · exact absurd h hab
          · exact h
        have h1 : rowLe a b := List.rel_of_pairwise_cons s1 hbt1
        have h2 : rowLe b a := List.rel_of_pairwise_cons s2 hat2
        have hk : a.key = b.key := strLe_antisymm h1 h2
        have hmem : a.key ∈ t1.map CsvRow.key := by
          rw [hk]; exact List.mem_map_of_mem _ hbt1
        have hnot : a.key ∉ t1.map CsvRow.key := by
          simp only [List.map_cons, List.nodup_cons] at nd
          exact nd.1
        exact hnot hmem

theorem sortCsvTable_eq_of_perm {t1 t2 : List CsvRow} (p : List.Perm t1 t2)
    (nd : (t1.map CsvRow.key).Nodup) : sortCsvTable t1 = sortCsvTable t2 := by
  refine eq_of_perm_of_sorted_nodupKeys ?_ (sortCsvTable_sorted t1) (sortCsvTable_sorted t2) ?_
  · exact (sortCsvTable_perm t1).trans (p.trans (sortCsvTable_perm t2).symm)
  · exact (((sortCsvTable_perm t1).map CsvRow.key).nodup_iff).mpr nd

theorem loadTable_saveTable (schema : List Dtype) (t : List CsvRow)
    (hty : ∀ r ∈ t, cellsWellTyped schema r.cells = true)
    (hkey : ∀ r ∈ t, r.key ∉ naTokens)
    (hstr : ∀ r ∈ t, ∀ v, some (CellVal.vStr v) ∈ r.cells → v ∉ naTokens) :
    loadTable schema (saveTable t) = some (sortCsvTable t) := by
  unfold saveTable
  refine loadTable_serializedRows schema _ ?_
  intro r hr
  have hrt : r ∈ t := (sortCsvTable_perm t).mem_iff.mp hr
  exact parseRow_serializeRow schema r (hty r hrt) (hkey r hrt) (hstr r hrt)

/-
Embedding of AnalyzeFmuFiles.py.

`ResultStore` keeps a DataFrame indexed by `Filename` plus three session
counters.  `analyze` walks the work items, skips keys already in the table,
runs `_analyze_fmu_file` on the rest, breaks after five new results in
testing mode and checkpoints (sorting the in-memory table as a side effect of
`save`) every few results.  The outcome of the external calls for one file is
abstracted as `FmuOutcome`.
-/

/-- One record of the FMU analysis store: the columns passed to
`ResultStore.add_result` (lines 43-64), keyed separately by the filename. -/
structure FmuRecord where
  validityHasException : Bool
  validityProblemCount : Int
  validityMessage : String
  fmiVersion : Option String
  coSimulation : Option Bool
  modelExchange : Option Bool
  paramCount : Option Int
  inputCount : Option Int
  outputCount : Option Int
  generationTool : Option String
deriving DecidableEq

/-- The FMU `ResultStore`: the keyed table plus the three session counters
set up in `__init__` (lines 33-35). -/
structure FmuStore where
  table : List (String × FmuRecord)
  succeededCount : Nat
  exceptionCount : Nat
  preexistingCount : Nat
deriving DecidableEq

/-- `check_for_preexisting_result` (lines 37-41): index membership test that
bumps the skipped counter on a positive answer. -/
def FmuStore.checkForPreexistingResult (s : FmuStore) (filename : String) :
    Bool × FmuStore :=
  let isPreexisting := decide (filename ∈ s.table.map Prod.fst)
  (isPreexisting,
    if isPreexisting then { s with preexistingCount := s.preexistingCount + 1 } else s)

/-- `add_result` (lines 43-64): `pd.concat` appends the new row at the end of
the table, and one of the two session counters is bumped according to the
exception flag. -/
def FmuStore.addResult (s : FmuStore) (filename : String) (validityHasException : Bool)
    (validityProblemCount : Int) (validityMessage : String) (fmiVersion : Option String)
    (cosimulation modelExchange : Option Bool)
    (paramCount inputCount outputCount : Option Int)
    (generationTool : Option String) : FmuStore :=
  { s with
    table := s.table ++
      [(filename, ⟨validityHasException, validityProblemCount, validityMessage, fmiVersion,
        cosimulation, modelExchange, paramCount, inputCount, outputCount, generationTool⟩)],
    succeededCount := if validityHasException then s.succeededCount else s.succeededCount + 1,
    exceptionCount := if validityHasException then s.exceptionCount + 1 else s.exceptionCount }

/-- Key order on FMU table rows. -/
def fmuRowLe (a b : String × FmuRecord) : Prop := strLe a.1 b.1

instance : DecidableRel fmuRowLe := fun a b => inferInstanceAs (Decidable (strLe a.1 b.1))

/-- `ResultStore.save` (lines 77-79): `sort_index(inplace=True)` sorts the
in-memory table by key before `to_csv` writes it out; the in-memory effect is
the sort. -/
def FmuStore.save (s : FmuStore) : FmuStore :=
  { s with table := List.insertionSort fmuRowLe s.table }

/-- `message.split('\n')[0]`: the first line of a validation problem. -/
def firstProblemLine (problem : List Char) : List Char :=
  problem.takeWhile (fun c => c ≠ '\n')

/-- Lines 126-130 of `_analyze_fmu_file`: keep only the first line of the
first problem and, if it is longer than 80 characters, cut it to 80 and
append the `...` marker. -/
def truncateValidityMessage (problem : List Char) : List Char :=
  if 80 < (firstProblemLine problem).length then
    (firstProblemLine problem).take 80 ++ "...".data
  else firstProblemLine problem

/-- The fields of `read_model_description`'s result that the analyzer uses;
`modelVariables` is the list of the variables' `causality` attributes
(`none` for a variable without one). -/
structure ModelDescription where
  fmiVersion : Option String
  coSimulation : Option Unit
  modelExchange : Option Unit
  modelVariables : List (Option String)
  generationTool : Option String

/-- Outcome of the external calls for one file: `exc` is an exception raised
anywhere inside the `try` block (`validate_fmu`, `read_model_description`,
`supported_platforms` or the tabulation), carrying `str(e)`; `ok` carries the
validation problems and the model description. -/
inductive FmuOutcome
  | exc (msg : String)
  | ok (problems : List String) (md : ModelDescription)

/-- `causality_counts.get(c, 0)` (lines 136-140): the number of model
variables whose causality is `c`. -/
def causalityCount (md : ModelDescription) (c : String) : Int :=
  (md.modelVariables.count (some c) : Int)

/-- `_analyze_fmu_file` (lines 121-157): on success add a non-exception
record with the truncated first problem (empty message when there are no
problems) and the extracted metadata; on any exception add an exception
record with the exception text and every metadata column `None`.  Returns the
store and the function's boolean result. -/
def analyzeFmuFile (s : FmuStore) (fmuFilePath : String) (outcome : FmuOutcome) :
    FmuStore × Bool :=
  match outcome with
  | .ok problems md =>
    let message :=
      match problems with
      | [] => ""
      | p :: _ => String.mk (truncateValidityMessage p.data)
    (s.addResult fmuFilePath false (problems.length : Int) message md.fmiVersion
      (some md.coSimulation.isSome) (some md.modelExchange.isSome)
      (some (causalityCount md "parameter")) (some (causalityCount md "input"))
      (some (causalityCount md "output")) md.generationTool, true)
  | .exc msg =>
    (s.addResult fmuFilePath true 0 ("Exception: " ++ msg) none none none none none none none,
      false)

/-- The `analyze` loop (lines 98-115) over the enumerated work items, each
paired with the outcome its externals would produce: skip preexisting keys,
process the rest, break once five new results exist in testing mode, and
checkpoint-save every 2 (testing) or 10 results. -/
def fmuAnalyzeLoop (isTesting : Bool) : FmuStore → List (String × FmuOutcome) → FmuStore
  | s, [] => s
  | s, (file, outcome) :: rest =>
    let check := s.checkForPreexistingResult file
    if check.1 then fmuAnalyzeLoop isTesting check.2 rest
    else
      let s2 := (analyzeFmuFile check.2 file outcome).1
      let newResultCount := s2.succeededCount + s2.exceptionCount
      if isTesting = true ∧ 5 ≤ newResultCount then s2
      else
        let saveAfterNumberOfResults := if isTesting then 2 else 10
        let s3 := if newResultCount % saveAfterNumberOfResults = 0 then s2.save else s2
        fmuAnalyzeLoop isTesting s3 rest

/-- `analyze` (lines 98-119): the loop followed by the unconditional final
save. -/
def fmuAnalyze (isTesting : Bool) (s : FmuStore) (files : List (String × FmuOutcome)) :
    FmuStore :=
  (fmuAnalyzeLoop isTesting s files).save

/-
Embedding of ScrapeGitHubFilesByExtension.py's ResultStore.

Its backing structure is a `sortedcontainers.SortedSet` of result strings,
modelled as a sorted duplicate-free list.
-/

/-- The scraper's `ResultStore` (lines 13-22): the sorted result set and the
two session counters. -/
structure ScrapeStore where
  results : List String
  newResults : Nat
  preexistingResults : Nat
deriving DecidableEq

/-- `add_result` (lines 24-29): if the string is already in the set only the
preexisting counter moves; otherwise it is inserted at its sorted position
and the new counter moves. -/
def ScrapeStore.addResult (s : ScrapeStore) (result : String) : ScrapeStore :=
  if result ∈ s.results then { s with preexistingResults := s.preexistingResults + 1 }
  else
    { s with
      results := List.orderedInsert strLe result s.results,
      newResults := s.newResults + 1 }

/-- The effect of a scrape run on the store: every harvested link is fed
through `add_result` in order (`save` does not change the in-memory set). -/
def scrapeAddAll (s : ScrapeStore) (links : List String) : ScrapeStore :=
  links.foldl ScrapeStore.addResult s

/-
Embedding of AnalyzeRepositories.py.

The store holds `Repository -> License` rows.  The `analyze` loop derives the
repository name from each file-result index (upstream of the part modelled
here), keeps a per-run `already_checked` set, and otherwise mirrors the FMU
loop — except that `new_result_count` is read on line 90 BEFORE
`_analyze_repository` adds the new record, so the break test and the
checkpoint test run on a stale count.
-/

/-- The repository `ResultStore` (lines 9-27): the keyed table and the three
session counters. -/
structure RepoStore where
  table : List (String × String)
  succeededCount : Nat
  failedCount : Nat
  preexistingCount : Nat
deriving DecidableEq

/-- `check_for_preexisting_result` (lines 29-33). -/
def RepoStore.checkForPreexistingResult (s : RepoStore) (repository : String) :
    Bool × RepoStore :=
  let isPreexisting := decide (repository ∈ s.table.map Prod.fst)
  (isPreexisting,
    if isPreexisting then { s with preexistingCount := s.preexistingCount + 1 } else s)

/-- `add_result` (lines 35-47): append the row, then classify it by whether
the license text starts with `Error:`. -/
def RepoStore.addResult (s : RepoStore) (repository license : String) : RepoStore :=
  { s with
    table := s.table ++ [(repository, license)],
    failedCount :=
      if strStartsWith license "Error:" then s.failedCount + 1 else s.failedCount,
    succeededCount :=
      if strStartsWith license "Error:" then s.succeededCount else s.succeededCount + 1 }

/-- Key order on repository table rows. -/
def repoRowLe (a b : String × String) : Prop := strLe a.1 b.1

instance : DecidableRel repoRowLe := fun a b => inferInstanceAs (Decidable (strLe a.1 b.1))

/-- `ResultStore.save` (lines 60-62): sort by key (in place), then write. -/
def RepoStore.save (s : RepoStore) : RepoStore :=
  { s with table := List.insertionSort repoRowLe s.table }

/-- The license-lookup HTTP response: status code, body text and the `key`
of the `license` JSON field (`none` when that field is JSON null). -/
structure RepoResponse where
  statusCode : Nat
  text : String
  licenseKey : Option String
deriving DecidableEq

/-- `_analyze_repository` (lines 111-124), minus the rate-limit sleep: a 200
response stores the license key (or the sentinel `none`); anything else
stores `Error:` followed by the response text. -/
def analyzeRepository (s : RepoStore) (repository : String) (resp : RepoResponse) :
    RepoStore :=
  if resp.statusCode = 200 then
    let license :=
      match resp.licenseKey with
      | some k => k
      | none => "none"
    s.addResult repository license
  else s.addResult repository ("Error: " ++ resp.text)

/-- The `analyze` loop (lines 79-105) over the derived repository names, each
paired with its HTTP response.  `new_result_count` is computed BEFORE
`_analyze_repository` runs (line 90), exactly as in the source, so the
testing-mode break compares the count of records that existed before the
current one was added. -/
def repoAnalyzeLoop (isTesting : Bool) :
    RepoStore → List String → List (String × RepoResponse) → RepoStore
  | s, _, [] => s
  | s, alreadyChecked, (repository, resp) :: rest =>
    if repository ∈ alreadyChecked then repoAnalyzeLoop isTesting s alreadyChecked rest
    else
      let alreadyChecked2 := repository :: alreadyChecked
      let check := s.checkForPreexistingResult repository
      if check.1 then repoAnalyzeLoop isTesting check.2 alreadyChecked2 rest
      else
        let newResultCount := check.2.succeededCount + check.2.failedCount
        let s2 := analyzeRepository check.2 repository resp
        if isTesting = true ∧ 5 ≤ newResultCount then s2
        else
          let saveAfterNumberOfResults := if isTesting then 2 else 10
          let s3 := if newResultCount % saveAfterNumberOfResults = 0 then s2.save else s2
          repoAnalyzeLoop isTesting s3 alreadyChecked2 rest

/-- `analyze` (lines 79-109): the loop followed by the final save. -/
def repoAnalyze (isTesting : Bool) (s : RepoStore) (items : List (String × RepoResponse)) :
    RepoStore :=
  (repoAnalyzeLoop isTesting s [] items).save

/-
Embedding of DownloadGitHubFiles.py's URL handling.

Python's `str.split(sep)` and `sep.join(parts)` for a one-character separator
are modelled on character lists.
-/

/-- Python `url.split(sep)` for a single-character separator: always returns
at least one (possibly empty) piece. -/
def splitChar (sep : Char) : List Char → List (List Char)
  | [] => [[]]
  | c :: cs =>
    if c = sep then [] :: splitChar sep cs
    else
      match splitChar sep cs with
      | [] => [[c]]
      | h :: t => (c :: h) :: t

/-- Python `sep.join(parts)` for a single-character separator. -/
def joinChar (sep : Char) : List (List Char) → List Char
  | [] => []
  | [p] => p
  | p :: ps => p ++ sep :: joinChar sep ps

/-- The `ParsedUrl` named tuple (line 71). -/
structure ParsedUrl where
  owner : List Char
  repo : List Char
  commitHash : List Char
  filepath : List Char
deriving DecidableEq

/-- `_parse_url` (lines 72-86): split the URL on `/`; reading components 3, 4
and 6 raises IndexError when there are fewer than seven components, and the
assertion requires component 5 to be `blob` — both failures are `none` here.
Otherwise the remaining components are joined back into the file path. -/
def parseUrl (githubFileUrl : List Char) : Option ParsedUrl :=
  let split := splitChar '/' githubFileUrl
  if h : 7 ≤ split.length then
    if split.get ⟨5, by omega⟩ = "blob".data then
      some
        ⟨split.get ⟨3, by omega⟩, split.get ⟨4, by omega⟩, split.get ⟨6, by omega⟩,
          joinChar '/' (split.drop 7)⟩
    else none
  else none

/-- `_get_local_filepath` (lines 102-109): the downloads directory next to
the URL list (`urlListDirectory` models `os.path.dirname(url_list_filepath)`),
the owner and repo as directories, and the repo-relative path with its `/`
separators replaced by `_`. -/
def getLocalFilepath (urlListDirectory : List Char) (p : ParsedUrl) : List Char :=
  urlListDirectory ++ "/downloads/".data ++ p.owner ++ "/".data ++ p.repo ++ "/".data ++
    joinChar '_' (splitChar '/' p.filepath)

/-- `_process_file_result` (lines 55-58). -/
inductive ProcessFileResult
  | succeeded
  | failed
  | skipped
deriving DecidableEq

/-- `_process_file` (lines 60-69): parse the URL (a parse failure propagates,
modelled as `none`), skip if the derived local path already exists, otherwise
download — `downloadOk` is whether the streaming GET returns 200, and a
successful download writes the local file.  The filesystem is the list of
existing local paths. -/
def processFile (urlListDirectory : List Char) (existingFiles : List (List Char))
    (downloadOk : Bool) (githubFileUrl : List Char) :
    Option (ProcessFileResult × List (List Char)) :=
  match parseUrl githubFileUrl with
  | none => none
  | some parsed =>
    let localFilepath := getLocalFilepath urlListDirectory parsed
    if localFilepath ∈ existingFiles then some (.skipped, existingFiles)
    else if downloadOk then some (.succeeded, localFilepath :: existingFiles)
    else some (.failed, existingFiles)

/-- A URL with exactly the documented structure
`https://<host>/<owner>/<repo>/blob/<revision>/<path...>`, assembled from its
components (note `https://host` splits on `/` into `https:`, an empty piece,
and `host`). -/
def mkGitHubUrl (host owner repo revision : List Char) (pathParts : List (List Char)) :
    List Char :=
  joinChar '/' (["https:".data, [], host, owner, repo, "blob".data, revision] ++ pathParts)

/-
Supporting lemmas about the stores and batch loops.
-/

instance : IsTotal String strLe := ⟨strLe_total⟩

instance : IsTrans String strLe := ⟨fun _ _ _ => strLe_trans⟩

instance : IsTotal (String × FmuRecord) fmuRowLe := ⟨fun a b => strLe_total a.1 b.1⟩

instance : IsTrans (String × FmuRecord) fmuRowLe := ⟨fun _ _ _ h1 h2 => strLe_trans h1 h2⟩

instance : IsTotal (String × String) repoRowLe := ⟨fun a b => strLe_total a.1 b.1⟩

instance : IsTrans (String × String) repoRowLe := ⟨fun _ _ _ h1 h2 => strLe_trans h1 h2⟩

/-- The record `_analyze_fmu_file` stores for a given outcome. -/
def fmuRecordOf : FmuOutcome → FmuRecord
  | .exc msg => ⟨true, 0, "Exception: " ++ msg, none, none, none, none, none, none, none⟩
  | .ok problems md =>
    ⟨false, (problems.length : Int),
      (match problems with
       | [] => ""
       | p :: _ => String.mk (truncateValidityMessage p.data)),
      md.fmiVersion, some md.coSimulation.isSome, some md.modelExchange.isSome,
      some (causalityCount md "parameter"), some (causalityCount md "input"),
      some (causalityCount md "output"), md.generationTool⟩

theorem analyzeFmuFile_table (s : FmuStore) (p : String) (o : FmuOutcome) :
    ((analyzeFmuFile s p o).1).table = s.table ++ [(p, fmuRecordOf o)] := by
  cases o <;> rfl

theorem analyzeFmuFile_counts (s : FmuStore) (p : String) (o : FmuOutcome) :
    ((analyzeFmuFile s p o).1).succeededCount + ((analyzeFmuFile s p o).1).exceptionCount =
      s.succeededCount + s.exceptionCount + 1 := by
  cases o <;> simp [analyzeFmuFile, FmuStore.addResult] <;> omega

theorem fmuSave_table_perm (s : FmuStore) : List.Perm (FmuStore.save s).table s.table :=
  List.perm_insertionSort _ _

theorem repoSave_table_perm (s : RepoStore) : List.Perm (RepoStore.save s).table s.table :=
  List.perm_insertionSort _ _

theorem fmuAnalyzeLoop_cons (b : Bool) (s : FmuStore) (file : String) (o : FmuOutcome)
    (rest : List (String × FmuOutcome)) :
    fmuAnalyzeLoop b s ((file, o) :: rest) =
      if file ∈ s.table.map Prod.fst then
        fmuAnalyzeLoop b { s with preexistingCount := s.preexistingCount + 1 } rest
      else
        if b = true ∧ 5 ≤ (analyzeFmuFile s file o).1.succeededCount +
            (analyzeFmuFile s file o).1.exceptionCount then
          (analyzeFmuFile s file o).1
        else
          fmuAnalyzeLoop b
            (if ((analyzeFmuFile s file o).1.succeededCount +
                  (analyzeFmuFile s file o).1.exceptionCount) % (if b then 2 else 10) = 0 then
              ((analyzeFmuFile s file o).1).save
             else (analyzeFmuFile s file o).1)
            rest := by
  by_cases hc : file ∈ s.table.map Prod.fst <;>
    simp [fmuAnalyzeLoop, FmuStore.checkForPreexistingResult, hc]

theorem fmuAnalyzeLoop_keys_nodup (b : Bool) :
    ∀ (items : List (String × FmuOutcome)) (s : FmuStore),
      (s.table.map Prod.fst).Nodup →
      ((fmuAnalyzeLoop b s items).table.map Prod.fst).Nodup
  | [], _, h => h
  | (file, o) :: rest, s, h => by
    rw [fmuAnalyzeLoop_cons]
    by_cases hc : file ∈ s.table.map Prod.fst
    · rw [if_pos hc]
      exact fmuAnalyzeLoop_keys_nodup b rest _ h
    · rw [if_neg hc]
      have hkeys : (((analyzeFmuFile s file o).1).table.map Prod.fst).Nodup := by
        rw [analyzeFmuFile_table, List.map_append]
        exact (List.perm_append_singleton file _).nodup_iff.mpr (List.nodup_cons.mpr ⟨hc, h⟩)
      by_cases hb : b = true ∧ 5 ≤ (analyzeFmuFile s file o).1.succeededCount +
          (analyzeFmuFile s file o).1.exceptionCount
      · rw [if_pos hb]
        exact hkeys
      · rw [if_neg hb]
        refine fmuAnalyzeLoop_keys_nodup b rest _ ?_
        by_cases hs : ((analyzeFmuFile s file o).1.succeededCount +
            (analyzeFmuFile s file o).1.exceptionCount) % (if b then 2 else 10) = 0
        · rw [if_pos hs]
          exact (((fmuSave_table_perm _).map Prod.fst).nodup_iff).mpr hkeys
        · rw [if_neg hs]
          exact hkeys

theorem fmuAnalyzeLoop_false_table :
    ∀ (items : List (String × FmuOutcome)) (s : FmuStore),
      ((s.table.map Prod.fst) ++ items.map Prod.fst).Nodup →
      List.Perm (fmuAnalyzeLoop false s items).table
        (s.table ++ items.map (fun it => (it.1, fmuRecordOf it.2)))
  | [], s, _ => by simp [fmuAnalyzeLoop]
  | (file, o) :: rest, s, h => by
    simp only [List.map_cons] at h
    have hc : file ∉ s.table.map Prod.fst := fun hmem =>
      (List.disjoint_of_nodup_append h) hmem (List.mem_cons_self _ _)
    rw [fmuAnalyzeLoop_cons, if_neg hc, if_neg (by simp)]
    have htab : ((analyzeFmuFile s file o).1).table = s.table ++ [(file, fmuRecordOf o)] :=
      analyzeFmuFile_table s file o
    set s2 := (analyzeFmuFile s file o).1 with hs2
    set s3 := if (s2.succeededCount + s2.exceptionCount) % (if false then 2 else 10) = 0
      then s2.save else s2 with hs3
    have hp3 : List.Perm s3.table (s.table ++ [(file, fmuRecordOf o)]) := by
      rw [hs3]
      by_cases hs : (s2.succeededCount + s2.exceptionCount) % (if false then 2 else 10) = 0
      · rw [if_pos hs, ← htab]
        exact fmuSave_table_perm s2
      · rw [if_neg hs, htab]
    have hnodup3 : ((s3.table.map Prod.fst) ++ rest.map Prod.fst).Nodup := by
      have heq : (s.table.map Prod.fst) ++ file :: rest.map Prod.fst =
          ((s.table.map Prod.fst) ++ [file]) ++ rest.map Prod.fst := by
        rw [List.append_assoc]; rfl
      rw [heq] at h
      have hpk : List.Perm (s3.table.map Prod.fst) ((s.table.map Prod.fst) ++ [file]) := by
        have := hp3.map Prod.fst
        simpa using this
      exact ((hpk.append_right (rest.map Prod.fst)).nodup_iff).mpr h
    have ih := fmuAnalyzeLoop_false_table rest s3 hnodup3
    refine ih.trans ?_
    have := hp3.append_right (rest.map (fun it => (it.1, fmuRecordOf it.2)))
    refine this.trans ?_
    rw [List.append_assoc]
    simp

theorem fmuAnalyze_false_table (items : List (String × FmuOutcome)) (s : FmuStore)
    (h : ((s.table.map Prod.fst) ++ items.map Prod.fst).Nodup) :
    List.Perm (fmuAnalyze false s items).table
      (s.table ++ items.map (fun it => (it.1, fmuRecordOf it.2))) :=
  (fmuSave_table_perm _).trans (fmuAnalyzeLoop_false_table items s h)

/-- The license string `_analyze_repository` stores for a given response. -/
def repoLicenseOf (resp : RepoResponse) : String :=
  if resp.statusCode = 200 then
    match resp.licenseKey with
    | some k => k
    | none => "none"
  else "Error: " ++ resp.text

theorem analyzeRepository_table (s : RepoStore) (repository : String) (resp : RepoResponse) :
    (analyzeRepository s repository resp).table =
      s.table ++ [(repository, repoLicenseOf resp)] := by
  unfold analyzeRepository repoLicenseOf
  by_cases h : resp.statusCode = 200
  · rw [if_pos h, if_pos h]
    cases resp.licenseKey <;> rfl
  · rw [if_neg h, if_neg h]
    rfl

theorem strStartsWith_error (t : String) : strStartsWith ("Error: " ++ t) "Error:" = true := by
  show ("Error:".data).isPrefixOf ("Error: " ++ t).data = true
  apply List.isPrefixOf_iff_prefix.mpr
  rw [String.data_append, show ("Error: " : String).data = "Error:".data ++ " ".data from rfl,
    List.append_assoc]
  exact List.prefix_append _ _

theorem repoAnalyzeLoop_cons (b : Bool) (s : RepoStore) (checked : List String)
    (repository : String) (resp : RepoResponse) (rest : List (String × RepoResponse)) :
    repoAnalyzeLoop b s checked ((repository, resp) :: rest) =
      if repository ∈ checked then repoAnalyzeLoop b s checked rest
      else
        if repository ∈ s.table.map Prod.fst then
          repoAnalyzeLoop b { s with preexistingCount := s.preexistingCount + 1 }
            (repository :: checked) rest
        else
          if b = true ∧ 5 ≤ s.succeededCount + s.failedCount then
            analyzeRepository s repository resp
          else
            repoAnalyzeLoop b
              (if (s.succeededCount + s.failedCount) % (if b then 2 else 10) = 0 then
                (analyzeRepository s repository resp).save
               else analyzeRepository s repository resp)
              (repository :: checked) rest := by
  by_cases h1 : repository ∈ checked
  · simp [repoAnalyzeLoop, h1]
  · by_cases h2 : repository ∈ s.table.map Prod.fst <;>
      simp [repoAnalyzeLoop, RepoStore.checkForPreexistingResult, h1, h2]

theorem repoAnalyzeLoop_keys_nodup (b : Bool) :
    ∀ (items : List (String × RepoResponse)) (s : RepoStore) (checked : List String),
      (s.table.map Prod.fst).Nodup →
      ((repoAnalyzeLoop b s checked items).table.map Prod.fst).Nodup
  | [], _, _, h => h
  | (repository, resp) :: rest, s, checked, h => by
    rw [repoAnalyzeLoop_cons]
    by_cases h1 : repository ∈ checked
    · rw [if_pos h1]
      exact repoAnalyzeLoop_keys_nodup b rest s checked h
    · rw [if_neg h1]
      by_cases h2 : repository ∈ s.table.map Prod.fst
      · rw [if_pos h2]
        exact repoAnalyzeLoop_keys_nodup b rest _ _ h
      · rw [if_neg h2]
        have hkeys : ((analyzeRepository s repository resp).table.map Prod.fst).Nodup := by
          rw [analyzeRepository_table, List.map_append]
          exact (List.perm_append_singleton repository _).nodup_iff.mpr
            (List.nodup_cons.mpr ⟨h2, h⟩)
        by_cases hb : b = true ∧ 5 ≤ s.succeededCount + s.failedCount
        · rw [if_pos hb]
          exact hkeys
        · rw [if_neg hb]
          refine repoAnalyzeLoop_keys_nodup b rest _ _ ?_
          by_cases hs : (s.succeededCount + s.failedCount) % (if b then 2 else 10) = 0
          · rw [if_pos hs]
            exact (((repoSave_table_perm _).map Prod.fst).nodup_iff).mpr hkeys
          · rw [if_neg hs]
            exact hkeys

theorem scrapeAddResult_nodup {s : ScrapeStore} (h : s.results.Nodup) (r : String) :
    (s.addResult r).results.Nodup := by
  unfold ScrapeStore.addResult
  by_cases hm : r ∈ s.results
  · rw [if_pos hm]
    exact h
  · rw [if_neg hm]
    exact (List.perm_orderedInsert strLe r s.results).nodup_iff.mpr
      (List.nodup_cons.mpr ⟨hm, h⟩)

theorem scrapeAddAll_nodup :
    ∀ (links : List String) (s : ScrapeStore),
      s.results.Nodup → (scrapeAddAll s links).results.Nodup
  | [], _, h => h
  | r :: rs, s, h =>
    scrapeAddAll_nodup rs (s.addResult r) (scrapeAddResult_nodup h r)

theorem splitChar_not_mem {sep : Char} : ∀ {l : List Char}, sep ∉ l → splitChar sep l = [l]
  | [], _ => rfl
  | c :: cs, h => by
    have hc : ¬ c = sep := fun hcs => h (hcs ▸ List.mem_cons_self c cs)
    have hcs : sep ∉ cs := fun hm => h (List.mem_cons_of_mem c hm)
    simp only [splitChar, if_neg hc, splitChar_not_mem hcs]

theorem splitChar_append {sep : Char} :
    ∀ {p : List Char}, sep ∉ p → ∀ t : List Char,
      splitChar sep (p ++ sep :: t) = p :: splitChar sep t
  | [], _, t => by simp [splitChar]
  | c :: cp, h, t => by
    have hc : ¬ c = sep := fun hcs => h (hcs ▸ List.mem_cons_self c cp)
    have hcp : sep ∉ cp := fun hm => h (List.mem_cons_of_mem c hm)
    have ih := splitChar_append hcp t
    simp only [List.cons_append, splitChar, if_neg hc]
    rw [show cp.append (sep :: t) = cp ++ sep :: t from rfl, ih]

theorem splitChar_joinChar {sep : Char} :
    ∀ parts : List (List Char), parts ≠ [] → (∀ p ∈ parts, sep ∉ p) →
      splitChar sep (joinChar sep parts) = parts
  | [], hne, _ => absurd rfl hne
  | [p], _, h => by
    simp only [joinChar]
    exact splitChar_not_mem (h p (List.mem_cons_self p []))
  | p :: q :: qs, _, h => by
    have hp : sep ∉ p := h p (List.mem_cons_self _ _)
    have hrest : ∀ x ∈ q :: qs, sep ∉ x := fun x hx => h x (List.mem_cons_of_mem p hx)
    show splitChar sep (p ++ sep :: joinChar sep (q :: qs)) = p :: q :: qs
    rw [splitChar_append hp, splitChar_joinChar (q :: qs) (by simp) hrest]

theorem splitChar_mkGitHubUrl (host owner repo revision : List Char)
    (pathParts : List (List Char)) (hh : '/' ∉ host) (ho : '/' ∉ owner) (hr : '/' ∉ repo)
    (hv : '/' ∉ revision) (hp : ∀ p ∈ pathParts, '/' ∉ p) :
    splitChar '/' (mkGitHubUrl host owner repo revision pathParts) =
      "https:".data :: [] :: host :: owner :: repo :: "blob".data :: revision :: pathParts := by
  unfold mkGitHubUrl
  have hlist : (["https:".data, [], host, owner, repo, "blob".data, revision] ++ pathParts) =
      "https:".data :: [] :: host :: owner :: repo :: "blob".data :: revision :: pathParts := by
    simp
  rw [hlist]
  refine splitChar_joinChar _ (by simp) ?_
  intro p hmem
  simp only [List.mem_cons] at hmem
  rcases hmem with h | h | h | h | h | h | h | h
  · subst h; decide
  · subst h; simp
  · subst h; exact hh
  · subst h; exact ho
  · subst h; exact hr
  · subst h; decide
  · subst h; exact hv
  · exact hp p h

theorem parseUrl_def (url : List Char) :
    parseUrl url =
      if h : 7 ≤ (splitChar '/' url).length then
        if (splitChar '/' url).get ⟨5, by omega⟩ = "blob".data then
          some
            ⟨(splitChar '/' url).get ⟨3, by omega⟩, (splitChar '/' url).get ⟨4, by omega⟩,
              (splitChar '/' url).get ⟨6, by omega⟩, joinChar '/' ((splitChar '/' url).drop 7)⟩
        else none
      else none := rfl

theorem get_eq_of_getElemQ {α : Type} {l : List α} {i : Nat} (h : i < l.length) {x : α}
    (hq : l[i]? = some x) : l.get ⟨i, h⟩ = x := by
  rw [List.getElem?_eq_getElem h] at hq
  have := Option.some.inj hq
  simp only [List.get_eq_getElem]
  exact this

theorem parseUrl_mkGitHubUrl (host owner repo revision : List Char)
    (pathParts : List (List Char)) (hh : '/' ∉ host) (ho : '/' ∉ owner) (hr : '/' ∉ repo)
    (hv : '/' ∉ revision) (hp : ∀ p ∈ pathParts, '/' ∉ p) :
    parseUrl (mkGitHubUrl host owner repo revision pathParts) =
      some ⟨owner, repo, revision, joinChar '/' pathParts⟩ := by
  have hsplit := splitChar_mkGitHubUrl host owner repo revision pathParts hh ho hr hv hp
  rw [parseUrl_def]
  have hlen : 7 ≤ (splitChar '/' (mkGitHubUrl host owner repo revision pathParts)).length := by
    rw [hsplit]
    simp [List.length_cons]
  rw [dif_pos hlen]
  have hget5 : (splitChar '/' (mkGitHubUrl host owner repo revision pathParts)).get
      ⟨5, by omega⟩ = "blob".data :=
    get_eq_of_getElemQ _ (by rw [hsplit]; rfl)
  rw [if_pos hget5]
  have hget3 : (splitChar '/' (mkGitHubUrl host owner repo revision pathParts)).get
      ⟨3, by omega⟩ = owner :=
    get_eq_of_getElemQ _ (by rw [hsplit]; rfl)
  have hget4 : (splitChar '/' (mkGitHubUrl host owner repo revision pathParts)).get
      ⟨4, by omega⟩ = repo :=
    get_eq_of_getElemQ _ (by rw [hsplit]; rfl)
  have hget6 : (splitChar '/' (mkGitHubUrl host owner repo revision pathParts)).get
      ⟨6, by omega⟩ = revision :=
    get_eq_of_getElemQ _ (by rw [hsplit]; simp)
  have hdrop : (splitChar '/' (mkGitHubUrl host owner repo revision pathParts)).drop 7 =
      pathParts := by
    rw [hsplit]
    rfl
  rw [hget3, hget4, hget6, hdrop]

theorem parseUrl_eq_none_iff (url : List Char) :
    parseUrl url = none ↔
      ((splitChar '/' url).length < 7 ∨
        ¬ (splitChar '/' url)[5]? = some ("blob".data)) := by
  rw [parseUrl_def]
  by_cases h : 7 ≤ (splitChar '/' url).length
  · rw [dif_pos h]
    have h5 : (splitChar '/' url)[5]? = some ((splitChar '/' url).get ⟨5, by omega⟩) := by
      rw [List.getElem?_eq_getElem (show 5 < (splitChar '/' url).length by omega)]
      simp
    split
    next hb =>
      constructor
      · intro hcontra; cases hcontra
      · intro hor
        rcases hor with hlen | hblob
        · omega
        · rw [h5] at hblob
          exact absurd (congrArg some hb) hblob
    next hb =>
      constructor
      · intro _
        right
        rw [h5]
        intro hsome
        exact hb (Option.some.inj hsome)
      · intro _; rfl
  · rw [dif_neg h]
    constructor
    · intro _
      left
      omega
    · intro _; rfl

theorem newline_not_mem_firstProblemLine (problem : List Char) :
    '\n' ∉ firstProblemLine problem := by
  intro h
  have := List.mem_takeWhile_imp h
  simp at this

/-
The claims.
-/

/-- **C4.** Every validation diagnostic stored by `_analyze_fmu_file` is the
first line of the first reported problem, contains no embedded newline, and
whenever that first line exceeds 80 characters the stored message is its
first 80 characters followed by the `...` truncation marker. -/
theorem c4_validator_truncation (problem : List Char) :
    '\n' ∉ truncateValidityMessage problem ∧
      ((firstProblemLine problem).length ≤ 80 →
        truncateValidityMessage problem = firstProblemLine problem) ∧
      (80 < (firstProblemLine problem).length →
        truncateValidityMessage problem =
          (firstProblemLine problem).take 80 ++ "...".data) := by
  unfold truncateValidityMessage
  by_cases h : 80 < (firstProblemLine problem).length
  · rw [if_pos h]
    refine ⟨?_, fun hle => absurd h (by omega), fun _ => rfl⟩
    intro hmem
    rcases List.mem_append.mp hmem with hm | hm
    · exact newline_not_mem_firstProblemLine problem (List.mem_of_mem_take hm)
    · exact absurd hm (by decide)
  · rw [if_neg h]
    exact ⟨newline_not_mem_firstProblemLine problem, fun _ => rfl, fun hlt => absurd hlt h⟩

/-- Witness for C4 at a concrete 100-character problem. -/
theorem c4_validator_truncation_witness :
    80 < (firstProblemLine (List.replicate 100 'a')).length ∧
      truncateValidityMessage (List.replicate 100 'a') =
        List.replicate 80 'a' ++ "...".data ∧
      '\n' ∉ truncateValidityMessage (List.replicate 100 'a') := by
  refine ⟨by decide, ?_, (c4_validator_truncation (List.replicate 100 'a')).1⟩
  have h := (c4_validator_truncation (List.replicate 100 'a')).2.2 (by decide)
  rw [h]
  decide

theorem scrapeAddResult_mem_results {s : ScrapeStore} {r : String} (h : r ∈ s.results) :
    (s.addResult r).results = s.results := by
  unfold ScrapeStore.addResult
  rw [if_pos h]

/-- **C9.** The scraper's `add_result` is idempotent: a result string already
in the store only bumps the preexisting counter and leaves the set unchanged;
an absent string is inserted at its sorted position — the set stays sorted
and duplicate-free — and only the new counter moves, so repeated additions
leave exactly one copy in the set. -/
theorem c9_scrape_add_result_idempotent (s : ScrapeStore) (r : String)
    (hsorted : s.results.Sorted strLe) (hnodup : s.results.Nodup) :
    (r ∈ s.results →
        (s.addResult r).results = s.results ∧
        (s.addResult r).preexistingResults = s.preexistingResults + 1 ∧
        (s.addResult r).newResults = s.newResults) ∧
      (r ∉ s.results →
        r ∈ (s.addResult r).results ∧
        (s.addResult r).results.Sorted strLe ∧
        (s.addResult r).results.Nodup ∧
        (s.addResult r).newResults = s.newResults + 1 ∧
        (s.addResult r).preexistingResults = s.preexistingResults) ∧
      ((s.addResult r).addResult r).results = (s.addResult r).results ∧
      (s.addResult r).results.count r = 1 := by
  have hmem' : r ∈ (s.addResult r).results := by
    unfold ScrapeStore.addResult
    by_cases hm : r ∈ s.results
    · rw [if_pos hm]; exact hm
    · rw [if_neg hm]
      exact (List.perm_orderedInsert strLe r s.results).mem_iff.mpr
        (List.mem_cons_self r s.results)
  have hnodup' : (s.addResult r).results.Nodup := scrapeAddResult_nodup hnodup r
  refine ⟨?_, ?_, scrapeAddResult_mem_results hmem', ?_⟩
  · intro hm
    unfold ScrapeStore.addResult
    rw [if_pos hm]
    exact ⟨rfl, rfl, rfl⟩
  · intro hm
    unfold ScrapeStore.addResult
    rw [if_neg hm]
    refine ⟨?_, ?_, ?_, rfl, rfl⟩
    · exact (List.perm_orderedInsert strLe r s.results).mem_iff.mpr
        (List.mem_cons_self r s.results)
    · exact List.Sorted.orderedInsert r s.results hsorted
    · exact (List.perm_orderedInsert strLe r s.results).nodup_iff.mpr
        (List.nodup_cons.mpr ⟨hm, hnodup⟩)
  · exact List.count_eq_one_of_mem hnodup' hmem'

/-- Witness for C9 at a concrete store and a fresh string. -/
theorem c9_scrape_add_result_idempotent_witness :
    "b" ∈ ((ScrapeStore.mk ["a", "c"] 0 0).addResult "b").results ∧
      (((ScrapeStore.mk ["a", "c"] 0 0).addResult "b").addResult "b").results =
        ((ScrapeStore.mk ["a", "c"] 0 0).addResult "b").results ∧
      ((ScrapeStore.mk ["a", "c"] 0 0).addResult "b").results.count "b" = 1 := by
  have h := c9_scrape_add_result_idempotent (ScrapeStore.mk ["a", "c"] 0 0) "b"
    (by decide) (by decide)
  exact ⟨(h.2.1 (by decide)).1, h.2.2.1, h.2.2.2⟩

/-- **C1.** Starting from any store whose keyed table satisfies the key
invariant, a run of any pipeline leaves each key in the table at most once,
however often a key recurs in the input sequence: the FMU analyzer and the
repository analyzer perform the positive pre-existence check before every
`add_result`, and the scraper's `add_result` checks membership itself. -/
theorem c1_no_duplicate_keys :
    (∀ (isTesting : Bool) (s : FmuStore) (items : List (String × FmuOutcome)),
        (s.table.map Prod.fst).Nodup →
        ((fmuAnalyze isTesting s items).table.map Prod.fst).Nodup) ∧
      (∀ (isTesting : Bool) (s : RepoStore) (items : List (String × RepoResponse)),
          (s.table.map Prod.fst).Nodup →
          ((repoAnalyze isTesting s items).table.map Prod.fst).Nodup) ∧
      (∀ (s : ScrapeStore) (links : List String),
          s.results.Nodup → (scrapeAddAll s links).results.Nodup) := by
  refine ⟨?_, ?_, fun s links h => scrapeAddAll_nodup links s h⟩
  · intro isTesting s items h
    exact (((fmuSave_table_perm _).map Prod.fst).nodup_iff).mpr
      (fmuAnalyzeLoop_keys_nodup isTesting items s h)
  · intro isTesting s items h
    exact (((repoSave_table_perm _).map Prod.fst).nodup_iff).mpr
      (repoAnalyzeLoop_keys_nodup isTesting items s [] h)

/-- Witness for C1: one concrete run of each pipeline, the first input key
repeated. -/
theorem c1_no_duplicate_keys_witness :
    ((fmuAnalyze false (FmuStore.mk [] 0 0 0)
        [("a", FmuOutcome.exc "x"), ("a", FmuOutcome.exc "y")]).table.map Prod.fst).Nodup ∧
      ((repoAnalyze false (RepoStore.mk [] 0 0 0)
          [("o/r", ⟨404, "e", none⟩), ("o/r", ⟨200, "", some "mit"⟩)]).table.map
        Prod.fst).Nodup ∧
      (scrapeAddAll (ScrapeStore.mk [] 0 0) ["u", "u", "v"]).results.Nodup :=
  ⟨c1_no_duplicate_keys.1 false _ _ (by decide),
    c1_no_duplicate_keys.2.1 false _ _ (by decide),
    c1_no_duplicate_keys.2.2 _ _ (by decide)⟩

/-- No string stored in the row — neither the key nor a populated string
cell — is one of the loader's NA markers. -/
def rowStringsSafe (r : CsvRow) : Bool :=
  decide (r.key ∉ naTokens) &&
    r.cells.all fun c =>
      match c with
      | some (.vStr v) => decide (v ∉ naTokens)
      | _ => true

theorem rowStringsSafe_key {r : CsvRow} (h : rowStringsSafe r = true) :
    r.key ∉ naTokens := by
  unfold rowStringsSafe at h
  exact of_decide_eq_true (Bool.and_eq_true .. ▸ h).1

theorem rowStringsSafe_cells {r : CsvRow} (h : rowStringsSafe r = true) :
    ∀ v, some (CellVal.vStr v) ∈ r.cells → v ∉ naTokens := by
  unfold rowStringsSafe at h
  intro v hv
  have hall := (Bool.and_eq_true .. ▸ h).2
  have := List.all_eq_true.mp hall _ hv
  exact of_decide_eq_true this

/-- The column schema of the FMU store as declared in `ResultStore.__init__`
(all columns except the `Filename` key). -/
def fmuSchema : List Dtype :=
  [.boolean, .int64, .string, .string, .boolean, .boolean, .int64, .int64, .int64, .string]

/-- The store row written for a valid FMU with zero validation problems: its
`Validity Message` cell holds the empty string (set on line 123 and never
overwritten when `problems` is empty). -/
def emptyMessageRow : CsvRow :=
  ⟨"model.fmu",
    [some (.vBool false), some (.vInt 0), some (.vStr ""), some (.vStr "2.0"),
      some (.vBool true), some (.vBool false), some (.vInt 3), some (.vInt 1),
      some (.vInt 1), some (.vStr "ToolX")]⟩

/-- **C2 counterexample.** A store holding one record of the supported field
types — the routine record of a problem-free FMU, whose message field is the
empty string — does not survive save-then-load: the empty string is read back
as a null marker, so the reloaded table differs from the original. -/
theorem c2_counterexample :
    loadTable fmuSchema (saveTable [emptyMessageRow]) ≠ some [emptyMessageRow] := by
  decide

/-- **C2 (amended).** Save-then-load reproduces the table — same keys, same
field values including null markers, boolean and integer typing preserved —
up to the key sort that save performs (the loaded table is the key-sorted
original, a permutation of the original), provided no key and no populated
string field is one of the loader's null-marker tokens (the empty string or
an NA sentinel); a record carrying such a string, e.g. the empty message of a
problem-free file, reloads with that field null instead. -/
theorem c2_save_load_round_trip (schema : List Dtype) (t : List CsvRow)
    (hty : (t.all fun r => cellsWellTyped schema r.cells) = true)
    (hsafe : t.all rowStringsSafe = true) :
    loadTable schema (saveTable t) = some (sortCsvTable t) ∧
      List.Perm (sortCsvTable t) t := by
  refine ⟨loadTable_saveTable schema t ?_ ?_ ?_, sortCsvTable_perm t⟩
  · exact fun r hr => List.all_eq_true.mp hty r hr
  · exact fun r hr => rowStringsSafe_key (List.all_eq_true.mp hsafe r hr)
  · exact fun r hr => rowStringsSafe_cells (List.all_eq_true.mp hsafe r hr)

/-- Witness for C2 at a one-row store exercising strings, booleans, positive
and negative integers and null markers. -/
theorem c2_save_load_round_trip_witness :
    loadTable fmuSchema
        (saveTable
          [⟨"model.fmu",
            [some (.vBool false), some (.vInt 0), some (.vStr "x"), none,
              some (.vBool true), none, some (.vInt 3), none, some (.vInt (-2)),
              some (.vStr "ToolX")]⟩]) =
      some
        (sortCsvTable
          [⟨"model.fmu",
            [some (.vBool false), some (.vInt 0), some (.vStr "x"), none,
              some (.vBool true), none, some (.vInt 3), none, some (.vInt (-2)),
              some (.vStr "ToolX")]⟩]) :=
  (c2_save_load_round_trip fmuSchema _ (by decide) (by decide)).1

/-- **C7.** `save` sorts the table by key ascending before serializing, so
the persisted file lists records in key order whatever the insertion order: a
sorted table serializes unchanged on a repeated save, two stores whose tables
are permutations of one another (with the key invariant) write identical
files, and the in-place sort of both pandas-backed stores leaves the table a
key-sorted permutation of itself. -/
theorem c7_save_sorted_and_deterministic :
    (∀ t : List CsvRow, ((sortCsvTable t).map CsvRow.key).Sorted strLe) ∧
      (∀ t : List CsvRow, saveTable (sortCsvTable t) = saveTable t) ∧
      (∀ t1 t2 : List CsvRow, List.Perm t1 t2 → (t1.map CsvRow.key).Nodup →
        saveTable t1 = saveTable t2) ∧
      (∀ s : FmuStore, ((FmuStore.save s).table.map Prod.fst).Sorted strLe ∧
        List.Perm (FmuStore.save s).table s.table) ∧
      (∀ s : RepoStore, ((RepoStore.save s).table.map Prod.fst).Sorted strLe ∧
        List.Perm (RepoStore.save s).table s.table) := by
  refine ⟨?_, ?_, ?_, ?_, ?_⟩
  · intro t
    exact List.pairwise_map.mpr (sortCsvTable_sorted t)
  · intro t
    unfold saveTable
    rw [show sortCsvTable (sortCsvTable t) = sortCsvTable t from
      List.Sorted.insertionSort_eq (sortCsvTable_sorted t)]
  · intro t1 t2 p nd
    unfold saveTable
    rw [sortCsvTable_eq_of_perm p nd]
  · intro s
    exact ⟨List.pairwise_map.mpr (List.sorted_insertionSort fmuRowLe s.table),
      fmuSave_table_perm s⟩
  · intro s
    exact ⟨List.pairwise_map.mpr (List.sorted_insertionSort repoRowLe s.table),
      repoSave_table_perm s⟩

/-- Witness for C7: two concrete stores with the same rows in opposite order
write the same file. -/
theorem c7_save_sorted_and_deterministic_witness :
    saveTable [⟨"b", []⟩, ⟨"a", []⟩] = saveTable [⟨"a", []⟩, ⟨"b", []⟩] :=
  c7_save_sorted_and_deterministic.2.2.1 _ _ (by decide) (by decide)

/-- **C6 counterexample.** The claim speaks of non-2xx versus 2xx responses,
but `_analyze_repository` tests `status_code == 200`: a 201 response — a 2xx
status — is stored as an `Error:` record and counted as failed, not
succeeded, and the stored value is not the license identifier. -/
theorem c6_counterexample :
    (200 ≤ 201 ∧ 201 < 300 ∧ 201 ≠ 200) ∧
      (analyzeRepository (RepoStore.mk [] 0 0 0) "o/r"
          ⟨201, "Created", some "mit"⟩).succeededCount = 0 ∧
      (analyzeRepository (RepoStore.mk [] 0 0 0) "o/r"
          ⟨201, "Created", some "mit"⟩).failedCount = 1 ∧
      (analyzeRepository (RepoStore.mk [] 0 0 0) "o/r" ⟨201, "Created", some "mit"⟩).table =
        [("o/r", "Error: Created")] := by
  decide

/-- **C6 (amended).** For a license-lookup response with status other than
exactly 200 (so in particular 404), the stored License value is `Error:`
followed by the response text — it begins with the literal `Error:` prefix —
and the failed counter increments by one while the succeeded counter is
unchanged; for a status-200 response the stored value is the license
identifier or the sentinel `none`, and (as that value does not begin with
`Error:`) the succeeded counter increments instead. -/
theorem c6_license_status_handling (s : RepoStore) (repository : String)
    (resp : RepoResponse) :
    (resp.statusCode ≠ 200 →
        (analyzeRepository s repository resp).table =
          s.table ++ [(repository, "Error: " ++ resp.text)] ∧
        strStartsWith ("Error: " ++ resp.text) "Error:" = true ∧
        (analyzeRepository s repository resp).failedCount = s.failedCount + 1 ∧
        (analyzeRepository s repository resp).succeededCount = s.succeededCount) ∧
      (resp.statusCode = 200 →
        (analyzeRepository s repository resp).table =
          s.table ++ [(repository, repoLicenseOf resp)] ∧
        repoLicenseOf resp =
          (match resp.licenseKey with
           | some k => k
           | none => "none") ∧
        (strStartsWith (repoLicenseOf resp) "Error:" = false →
          (analyzeRepository s repository resp).succeededCount = s.succeededCount + 1 ∧
          (analyzeRepository s repository resp).failedCount = s.failedCount)) := by
  constructor
  · intro h
    unfold analyzeRepository
    rw [if_neg h]
    unfold RepoStore.addResult
    rw [strStartsWith_error resp.text]
    exact ⟨rfl, strStartsWith_error resp.text, rfl, rfl⟩
  · intro h
    have htab := analyzeRepository_table s repository resp
    have hlic : repoLicenseOf resp =
        (match resp.licenseKey with
         | some k => k
         | none => "none") := by
      unfold repoLicenseOf
      rw [if_pos h]
    refine ⟨htab, hlic, ?_⟩
    intro hno
    unfold analyzeRepository
    rw [if_pos h]
    unfold RepoStore.addResult
    have hmatch : strStartsWith
        (match resp.licenseKey with
         | some k => k
         | none => "none") "Error:" = false := by
      rw [← hlic]
      exact hno
    simp [hmatch]

/-- Witness for C6: a 404 response and a 200 response against an empty
store. -/
theorem c6_license_status_handling_witness :
    (analyzeRepository (RepoStore.mk [] 0 0 0) "o/r" ⟨404, "Not Found", none⟩).table =
        [("o/r", "Error: Not Found")] ∧
      (analyzeRepository (RepoStore.mk [] 0 0 0) "o/r"
          ⟨404, "Not Found", none⟩).failedCount = 1 ∧
      (analyzeRepository (RepoStore.mk [] 0 0 0) "o/r"
          ⟨200, "", some "mit"⟩).succeededCount = 1 := by
  have h1 := (c6_license_status_handling (RepoStore.mk [] 0 0 0) "o/r"
    ⟨404, "Not Found", none⟩).1 (by decide)
  have h2 := (c6_license_status_handling (RepoStore.mk [] 0 0 0) "o/r"
    ⟨200, "", some "mit"⟩).2 rfl
  exact ⟨h1.1, h1.2.2.1, (h2.2.2 (by decide)).1⟩

/-- **C8 counterexample.** A URL that does not have the documented
`https://<host>/...` structure — here one with an `http:` scheme — is not
rejected: `_parse_url` accepts it and returns components, because the only
checks are the component count and the literal `blob` in position 5. -/
theorem c8_counterexample :
    ("https:".data.isPrefixOf "http://host/o/r/blob/rev/p".data = false) ∧
      parseUrl "http://host/o/r/blob/rev/p".data =
        some ⟨"o".data, "r".data, "rev".data, "p".data⟩ := by
  decide

/-- **C8 (amended).** Every URL that does have the documented structure
`https://<host>/<owner>/<repo>/blob/<revision>/<path...>` (slash-free
components) is parsed into exactly the four components owner, repository,
revision and path; but a URL fails to parse (IndexError or assertion) exactly
when it has fewer than seven `/`-separated components or its sixth component
is not `blob` — structural deviations that keep that shape, such as a
non-https scheme, are accepted positionally rather than rejected. -/
theorem c8_url_parsing (host owner repo revision : List Char)
    (pathParts : List (List Char)) (hh : '/' ∉ host) (ho : '/' ∉ owner) (hr : '/' ∉ repo)
    (hv : '/' ∉ revision) (hp : ∀ p ∈ pathParts, '/' ∉ p) :
    parseUrl (mkGitHubUrl host owner repo revision pathParts) =
        some ⟨owner, repo, revision, joinChar '/' pathParts⟩ ∧
      (∀ url : List Char,
        parseUrl url = none ↔
          ((splitChar '/' url).length < 7 ∨
            ¬ (splitChar '/' url)[5]? = some ("blob".data))) :=
  ⟨parseUrl_mkGitHubUrl host owner repo revision pathParts hh ho hr hv hp,
    fun url => parseUrl_eq_none_iff url⟩

/-- Witness for C8 at a concrete well-formed URL. -/
theorem c8_url_parsing_witness :
    parseUrl (mkGitHubUrl "github.com".data "AIT-IES".data "FMITerminalBlock".data
        "143403d".data ["doc".data, "model.fmu".data]) =
      some ⟨"AIT-IES".data, "FMITerminalBlock".data, "143403d".data,
        joinChar '/' ["doc".data, "model.fmu".data]⟩ :=
  (c8_url_parsing "github.com".data "AIT-IES".data "FMITerminalBlock".data "143403d".data
    ["doc".data, "model.fmu".data] (by decide) (by decide) (by decide) (by decide)
    (by decide)).1

/-- **C10.** The local-path derivation of the downloader is not injective:
two distinct well-formed source URLs with the same owner, repository and
revision but different repo paths (`a/b.fmu` versus `a_b.fmu`) map to the
identical local file path, because `/` inside the repo path is replaced by
`_`; after the first file is downloaded, processing the second URL is
classified as an already-cached skip and its file is never downloaded. -/
theorem c10_local_path_collision :
    ("https://github.com/o/r/blob/rev/a/b.fmu".data ≠
        "https://github.com/o/r/blob/rev/a_b.fmu".data) ∧
      parseUrl "https://github.com/o/r/blob/rev/a/b.fmu".data =
        some ⟨"o".data, "r".data, "rev".data, "a/b.fmu".data⟩ ∧
      parseUrl "https://github.com/o/r/blob/rev/a_b.fmu".data =
        some ⟨"o".data, "r".data, "rev".data, "a_b.fmu".data⟩ ∧
      ("a/b.fmu".data ≠ "a_b.fmu".data) ∧
      getLocalFilepath "results".data ⟨"o".data, "r".data, "rev".data, "a/b.fmu".data⟩ =
        getLocalFilepath "results".data ⟨"o".data, "r".data, "rev".data, "a_b.fmu".data⟩ ∧
      processFile "results".data [] true "https://github.com/o/r/blob/rev/a/b.fmu".data =
        some (.succeeded, ["results/downloads/o/r/a_b.fmu".data]) ∧
      processFile "results".data ["results/downloads/o/r/a_b.fmu".data] true
          "https://github.com/o/r/blob/rev/a_b.fmu".data =
        some (.skipped, ["results/downloads/o/r/a_b.fmu".data]) := by
  decide

/-- **C5.** Whenever the external validation, metadata-extraction or platform
call raises, `_analyze_fmu_file` catches the exception and adds a failed
record whose message is `Exception: ` followed by the exception text, with
every metadata field null, and returns instead of propagating; the batch run
then continues — every later item of the run is still processed (with the key
invariant over the run's fresh keys). -/
theorem c5_exception_continues (s : FmuStore) (pre post : List (String × FmuOutcome))
    (path msg : String)
    (h : ((s.table.map Prod.fst) ++
        (pre ++ (path, FmuOutcome.exc msg) :: post).map Prod.fst).Nodup) :
    ((analyzeFmuFile s path (FmuOutcome.exc msg)).1.table =
        s.table ++
          [(path, ⟨true, 0, "Exception: " ++ msg, none, none, none, none, none, none,
            none⟩)] ∧
      (analyzeFmuFile s path (FmuOutcome.exc msg)).2 = false) ∧
      ((path, (⟨true, 0, "Exception: " ++ msg, none, none, none, none, none, none,
          none⟩ : FmuRecord)) ∈
        (fmuAnalyze false s (pre ++ (path, FmuOutcome.exc msg) :: post)).table ∧
      (fmuAnalyze false s (pre ++ (path, FmuOutcome.exc msg) :: post)).table.length =
        s.table.length + pre.length + 1 + post.length) := by
  have hperm := fmuAnalyze_false_table (pre ++ (path, FmuOutcome.exc msg) :: post) s h
  refine ⟨⟨rfl, rfl⟩, ?_, ?_⟩
  · refine hperm.mem_iff.mpr ?_
    refine List.mem_append.mpr (Or.inr ?_)
    refine List.mem_map.mpr ⟨(path, FmuOutcome.exc msg), ?_, rfl⟩
    exact List.mem_append.mpr (Or.inr (List.mem_cons_self _ _))
  · rw [hperm.length_eq]
    simp
    omega

/-- Witness for C5: a two-item run whose first item raises; the second item
is still processed. -/
theorem c5_exception_continues_witness :
    ("a", (⟨true, 0, "Exception: boom", none, none, none, none, none, none,
        none⟩ : FmuRecord)) ∈
      (fmuAnalyze false (FmuStore.mk [] 0 0 0)
        [("a", FmuOutcome.exc "boom"),
          ("b", FmuOutcome.ok [] ⟨none, none, none, [], none⟩)]).table ∧
      (fmuAnalyze false (FmuStore.mk [] 0 0 0)
        [("a", FmuOutcome.exc "boom"),
          ("b", FmuOutcome.ok [] ⟨none, none, none, [], none⟩)]).table.length = 2 := by
  have h := c5_exception_continues (FmuStore.mk [] 0 0 0) []
    [("b", FmuOutcome.ok [] ⟨none, none, none, [], none⟩)] "a" "boom" (by decide)
  exact ⟨h.2.1, h.2.2⟩

/-- Twenty distinct never-before-seen work items for the FMU analyzer, each a
clean validation. -/
def twentyFmuItems : List (String × FmuOutcome) :=
  ["a", "b", "c", "d", "e", "f", "g", "h", "i", "j", "k", "l", "m", "n", "o", "p",
    "q", "r", "s", "t"].map fun k => (k, FmuOutcome.ok [] ⟨none, none, none, [], none⟩)

/-- Twenty distinct never-before-seen repositories, each answering 200 with a
license. -/
def twentyRepoItems : List (String × RepoResponse) :=
  ["a", "b", "c", "d", "e", "f", "g", "h", "i", "j", "k", "l", "m", "n", "o", "p",
    "q", "r", "s", "t"].map fun k => (k, ⟨200, "", some "mit"⟩)

/-- **C3.** With testing mode on and the cap constant 5, a source sequence of
20 never-before-seen items drives the FMU analyzer to exactly 5 new records —
but the repository analyzer to 6, because `AnalyzeRepositories.analyze` reads
`new_result_count` before `_analyze_repository` adds the record (line 90), so
its break test compares a stale count; both runs terminate early without
error. -/
theorem c3_test_cap_evaluation :
    ((fmuAnalyze true (FmuStore.mk [] 0 0 0) twentyFmuItems).succeededCount +
          (fmuAnalyze true (FmuStore.mk [] 0 0 0) twentyFmuItems).exceptionCount = 5 ∧
        (fmuAnalyze true (FmuStore.mk [] 0 0 0) twentyFmuItems).table.length = 5 ∧
        fmuAnalyze true (FmuStore.mk [] 0 0 0) twentyFmuItems =
          fmuAnalyze true (FmuStore.mk [] 0 0 0) (twentyFmuItems.take 5)) ∧
      ((repoAnalyze true (RepoStore.mk [] 0 0 0) twentyRepoItems).succeededCount +
          (repoAnalyze true (RepoStore.mk [] 0 0 0) twentyRepoItems).failedCount = 6 ∧
        (repoAnalyze true (RepoStore.mk [] 0 0 0) twentyRepoItems).table.length = 6 ∧
        repoAnalyze true (RepoStore.mk [] 0 0 0) twentyRepoItems =
          repoAnalyze true (RepoStore.mk [] 0 0 0) (twentyRepoItems.take 6)) := by
  decide
